import Mathlib

/-
  Verification of the query-planning and register-binding subsystem of the
  wb-mqtt-serial repository, against its natural-language specification.

  The definitions below are a shallow embedding of the C++ sources:
    - src/ir_device_query_factory.cpp  (hole computation, per-type limits,
      CheckSets, MergeSets and its two merge conditions)
    - src/memory_block.cpp             (linkage state machine, NeedsCaching)
    - src/virtual_register.cpp         (AcceptDeviceValue, UpdateReadError,
      UpdateWriteError, Flush)

  Machine integers of the source (uint16_t, uint32_t, uint64_t) are modelled
  as Nat: every arithmetic operation performed by the embedded code paths is
  a comparison, a truncated subtraction of a smaller value from a larger one
  (the source asserts the ordering), or a +1, none of which can overflow the
  source widths for the address spaces involved.
-/

namespace WbSerial

/-- Memory block type descriptor (data model section 3 of the spec). Only the
fields consulted by the verified code paths are modelled: the numeric index,
the default size in bytes and the read-only flag. Name, single-bit flag and
variadic flag are either strings used for diagnostics or are consulted only
through the protocol-info capability, which is modelled separately. -/
structure TMemoryBlockType where
  Index : Nat
  Size : Nat
  ReadOnly : Bool
deriving DecidableEq, Repr

/-- Modelled from the spec: equality of TMemoryBlockType (the header defining
operator== is not under src/). Spec section 3: two blocks are type-equal iff
their index matches. -/
def TMemoryBlockType.typeEqual (t u : TMemoryBlockType) : Prop :=
  t.Index = u.Index

instance : DecidablePred fun p : TMemoryBlockType × TMemoryBlockType =>
    p.1.typeEqual p.2 := fun p => by
  unfold TMemoryBlockType.typeEqual; infer_instance

instance (t u : TMemoryBlockType) : Decidable (t.typeEqual u) := by
  unfold TMemoryBlockType.typeEqual; infer_instance

/-- One addressable unit of the protocol address space
(TMemoryBlock, src/memory_block.cpp). Cache pointer and linkage are
modelled separately where the claims need them. -/
structure TMemoryBlock where
  Address : Nat
  BlockType : TMemoryBlockType
  Size : Nat
deriving DecidableEq, Repr

/-- Strict ordering of memory blocks, from TMemoryBlock::operator< in
src/memory_block.cpp lines 221-224: lexicographic on (Type.Index, Address). -/
def blockLt (a b : TMemoryBlock) : Prop :=
  a.BlockType.Index < b.BlockType.Index ∨
    (a.BlockType.Index = b.BlockType.Index ∧ a.Address < b.Address)

instance (a b : TMemoryBlock) : Decidable (blockLt a b) := by
  unfold blockLt; infer_instance

/-- Nonempty ordered set of memory blocks: the model of a TPSet of
memory blocks as the query factory receives it (begin and rbegin are
dereferenced unconditionally by the source, so emptiness is excluded by
construction). The list hd :: tl carries the iteration order of the std set;
theorems that depend on that order take sortedness as a hypothesis. -/
structure MBSet where
  hd : TMemoryBlock
  tl : List TMemoryBlock
deriving DecidableEq, Repr

namespace MBSet

/-- Underlying list of blocks in set iteration order. -/
def blocks (s : MBSet) : List TMemoryBlock := s.hd :: s.tl

/-- Dereferenced begin iterator of the set. -/
def first (s : MBSet) : TMemoryBlock := s.hd

/-- Dereferenced rbegin iterator of the set (the last element). -/
def last (s : MBSet) : TMemoryBlock := s.blocks.getLast (by simp [blocks])

/-- Sortedness invariant of a std set: strictly ascending in blockLt. -/
def SortedSet (s : MBSet) : Prop := s.blocks.Pairwise blockLt

/-- Homogeneity invariant: every block of the set carries the type index of
the first block. CheckSets establishes this before any merge is attempted. -/
def HomogeneousType (s : MBSet) : Prop :=
  ∀ mb ∈ s.blocks, mb.BlockType.Index = s.hd.BlockType.Index

instance (s : MBSet) : Decidable s.SortedSet := by
  unfold SortedSet; infer_instance

instance (s : MBSet) : Decidable s.HomogeneousType := by
  unfold HomogeneousType; infer_instance

end MBSet

/-- GetType from src/ir_device_query_factory.cpp lines 57-60: the type of the
first block of the set. -/
def GetType (s : MBSet) : TMemoryBlockType := s.first.BlockType

/-- GetSize from src/ir_device_query_factory.cpp lines 62-65: the size of the
first block of the set. -/
def GetSize (s : MBSet) : Nat := s.first.Size

/-- Modelled from the spec: TSerialDevice::StaticCreateMemoryBlockRange
(serial_device.cpp is not under src/). Spec section 4.4 and the design notes:
the range used for hole detection is a view over the device-wide ordered
container yielding all blocks of the given type with addresses inside
[first.Address, last.Address]. The device-wide container is passed here as a
list in its iteration order (ascending blockLt). -/
def StaticCreateMemoryBlockRange (device : List TMemoryBlock)
    (first last_ : TMemoryBlock) : List TMemoryBlock :=
  device.filter fun mb =>
    decide (mb.BlockType.Index = first.BlockType.Index) &&
    decide (first.Address ≤ mb.Address) &&
    decide (mb.Address ≤ last_.Address)

/-- Loop body of GetMaxHoleSize, src/ir_device_query_factory.cpp lines 21-35:
walk the addresses of the range keeping the maximal gap (address - prev - 1)
between consecutive entries. The accumulator starts after the first element,
mirroring the prev < 0 guard of the source. -/
def getMaxHoleSizeLoop : Nat → Nat → List Nat → Nat
  | hole, _, [] => hole
  | hole, prev, a :: rest => getMaxHoleSizeLoop (max hole (a - prev - 1)) a rest

/-- GetMaxHoleSize from src/ir_device_query_factory.cpp lines 14-38: the
largest address gap inside the device-wide block range between first and
last. Returns 0 for an empty or singleton range. -/
def GetMaxHoleSize (device : List TMemoryBlock)
    (first last_ : TMemoryBlock) : Nat :=
  match (StaticCreateMemoryBlockRange device first last_).map
      TMemoryBlock.Address with
  | [] => 0
  | a :: rest => getMaxHoleSizeLoop 0 a rest

/-- GetRegCount from src/ir_device_query_factory.cpp lines 45-50:
last address minus first address plus one. -/
def GetRegCount (first last_ : TMemoryBlock) : Nat :=
  last_.Address - first.Address + 1

/-- Largest gap between consecutive entries of an address list, written the
way the spec phrases it: the maximum over consecutive pairs of
(next - prev - 1). Used as the specification side of the hole computation. -/
def specMaxGap (addrs : List Nat) : Nat :=
  ((addrs.zip addrs.tail).map fun p => p.2 - p.1 - 1).foldr max 0



/-! Per-type limits (src/ir_device_query_factory.cpp lines 180-203). -/

/-- Query operation enum (Read or Write). -/
inductive EQueryOperation where
  | Read
  | Write
deriving DecidableEq, Repr

/-- Query generation policy enum. -/
inductive EQueryGenerationPolicy where
  | Minify
  | NoDuplicates
deriving DecidableEq, Repr

/-- Device configuration fields consulted by the planner. The source stores
them as int; only non-negative values reach the planner, so Nat is used and
the MaxReadRegisters > 0 test keeps its meaning. -/
structure TDeviceConfig where
  MaxBitHole : Nat
  MaxRegHole : Nat
  MaxReadRegisters : Nat
deriving DecidableEq, Repr

/-- Protocol info capability consulted by the planner (spec section 6). -/
structure TProtocolInfo where
  IsSingleBitType : TMemoryBlockType → Bool
  GetMaxReadBits : Nat
  GetMaxReadRegisters : Nat
  GetMaxWriteBits : Nat
  GetMaxWriteRegisters : Nat

/-- Lambda getMaxHoleAndRegs from src/ir_device_query_factory.cpp lines
180-203, closed over the policy, operation, device configuration and
protocol info. Returns (maxHole, maxRegs) for a memory block type. -/
def getMaxHoleAndRegs (policy : EQueryGenerationPolicy)
    (operation : EQueryOperation) (deviceConfig : TDeviceConfig)
    (protocolInfo : TProtocolInfo) (type : TMemoryBlockType) : Nat × Nat :=
  let singleBitType := protocolInfo.IsSingleBitType type
  let enableHoles := policy = EQueryGenerationPolicy.Minify
  let maxHole :=
    if enableHoles then
      (if singleBitType then deviceConfig.MaxBitHole else deviceConfig.MaxRegHole)
    else 0
  let maxRegs :=
    match operation with
    | EQueryOperation.Read =>
      let protocolMaximum :=
        if singleBitType then protocolInfo.GetMaxReadBits
        else protocolInfo.GetMaxReadRegisters
      if deviceConfig.MaxReadRegisters > 0 then
        min deviceConfig.MaxReadRegisters protocolMaximum
      else protocolMaximum
    | EQueryOperation.Write =>
      if singleBitType then protocolInfo.GetMaxWriteBits
      else protocolInfo.GetMaxWriteRegisters
  (maxHole, maxRegs)

/-- Claim C7, specification side, written from the words of the claim: the
protocol maximum for a Read is max_read_bits for single-bit types and
max_read_registers otherwise. -/
def specProtocolReadMaximum (protocolInfo : TProtocolInfo)
    (type : TMemoryBlockType) : Nat :=
  if protocolInfo.IsSingleBitType type then protocolInfo.GetMaxReadBits
  else protocolInfo.GetMaxReadRegisters

/-- Claim C7, specification side: max_regs for a Read is the minimum of the
configured device limit and the protocol maximum when the device limit is
configured (greater than zero), and the protocol maximum alone otherwise. -/
def specReadMaxRegs (deviceConfig : TDeviceConfig)
    (protocolInfo : TProtocolInfo) (type : TMemoryBlockType) : Nat :=
  if deviceConfig.MaxReadRegisters > 0 then
    min deviceConfig.MaxReadRegisters (specProtocolReadMaximum protocolInfo type)
  else specProtocolReadMaximum protocolInfo type

/-- Claim C7, specification side: max_hole is max_bit_hole for single-bit
types and max_reg_hole otherwise under Minify, and 0 under NoDuplicates. -/
def specMaxHole (policy : EQueryGenerationPolicy)
    (deviceConfig : TDeviceConfig) (protocolInfo : TProtocolInfo)
    (type : TMemoryBlockType) : Nat :=
  match policy with
  | EQueryGenerationPolicy.Minify =>
    if protocolInfo.IsSingleBitType type then deviceConfig.MaxBitHole
    else deviceConfig.MaxRegHole
  | EQueryGenerationPolicy.NoDuplicates => 0
/-! Merge condition of the Minify policy
(src/ir_device_query_factory.cpp lines 328-349). -/

/-- Local variable first of mergeCondition, src/ir_device_query_factory.cpp
line 338: the smaller of the two begin blocks under the block ordering. -/
def mergeFirst (a b : MBSet) : TMemoryBlock :=
  if blockLt a.first b.first then a.first else b.first

/-- Local variable last of mergeCondition, src/ir_device_query_factory.cpp
line 339: the larger of the two rbegin blocks under the block ordering. -/
def mergeLast (a b : MBSet) : TMemoryBlock :=
  if blockLt b.last a.last then a.last else b.last

/-- Lambda mergeCondition from src/ir_device_query_factory.cpp lines 328-349:
two sets may merge iff their types are equal, their sizes are equal, and
after taking the hull from the smaller begin block to the larger rbegin
block, the device-wide hole and the register count stay within the limits
returned by typeInfo. -/
def mergeCondition (device : List TMemoryBlock)
    (typeInfo : TMemoryBlockType → Nat × Nat) (a b : MBSet) : Bool :=
  if ¬ (GetType a).typeEqual (GetType b) then false
  else
    decide (GetSize a = GetSize b) &&
    decide (GetMaxHoleSize device (mergeFirst a b) (mergeLast a b) ≤
      (typeInfo (GetType a)).1) &&
    decide ((mergeLast a b).Address - (mergeFirst a b).Address + 1 ≤
      (typeInfo (GetType a)).2)

/-- Claim C2, specification side: the lower end of the address-wise hull of
two sets, min of the first addresses. -/
def specHullFirst (a b : MBSet) : Nat := min a.first.Address b.first.Address

/-- Claim C2, specification side: the upper end of the address-wise hull of
two sets, max of the last addresses. -/
def specHullLast (a b : MBSet) : Nat := max a.last.Address b.last.Address

/-- Claim C2, specification side: the device-wide set of blocks of the given
type index whose addresses fall within [lo, hi]. -/
def specDeviceBlocksInHull (device : List TMemoryBlock)
    (typeIndex lo hi : Nat) : List TMemoryBlock :=
  device.filter fun mb =>
    decide (mb.BlockType.Index = typeIndex) &&
    decide (lo ≤ mb.Address) && decide (mb.Address ≤ hi)

/-- Claim C2, specification side, written from the words of the claim: two
block sets merge iff their memory block types are equal, their block sizes
are equal, the address-wise hull has width at most max_regs, and the
largest gap between consecutive addresses of the device-wide set of blocks
of that type falling within the hull is at most max_hole. -/
def specMergeable (device : List TMemoryBlock)
    (typeInfo : TMemoryBlockType → Nat × Nat) (a b : MBSet) : Prop :=
  (GetType a).Index = (GetType b).Index ∧
  GetSize a = GetSize b ∧
  specHullLast a b - specHullFirst a b + 1 ≤ (typeInfo (GetType a)).2 ∧
  specMaxGap ((specDeviceBlocksInHull device (GetType a).Index
      (specHullFirst a b) (specHullLast a b)).map TMemoryBlock.Address) ≤
    (typeInfo (GetType a)).1

/-! Concrete inputs used by the witnesses. -/

/-- Concrete 16-bit holding-register-like type used by witnesses. -/
def wType : TMemoryBlockType := { Index := 0, Size := 2, ReadOnly := false }

/-- Concrete block of wType at a given address. -/
def wBlk (address : Nat) : TMemoryBlock :=
  { Address := address, BlockType := wType, Size := 2 }

/-- Concrete device-wide block list for the C2 witness: blocks at addresses
100, 101 and 103. The block at 101 belongs to neither merged set, so the
device-wide gap of the hull [100, 103] is 1 while the gap of the union of
the two sets alone would be 2. -/
def wDevice : List TMemoryBlock := [wBlk 100, wBlk 101, wBlk 103]

/-- Concrete first merged set for the C2 witness: the block at 100. -/
def wSetA : MBSet := { hd := wBlk 100, tl := [] }

/-- Concrete second merged set for the C2 witness: the block at 103. -/
def wSetB : MBSet := { hd := wBlk 103, tl := [] }

/-- Concrete per-type limits for the C2 witness: max_hole 1, max_regs 10. -/
def wTypeInfo : TMemoryBlockType → Nat × Nat := fun _ => (1, 10)

/-! CheckSets (src/ir_device_query_factory.cpp lines 245-308). -/

/-- Inner loop of CheckSets over the blocks of one set,
src/ir_device_query_factory.cpp lines 279-300: raise a configuration error
on the first block whose type index or size differs from the one of the
first block of the set. -/
def checkBlocksHomogeneous (typeIndex size : Nat) :
    List TMemoryBlock → Except String Unit
  | [] => Except.ok ()
  | mb :: rest =>
    if mb.BlockType.Index ≠ typeIndex then
      Except.error "different memory block types in same set"
    else if mb.Size ≠ size then
      Except.error "different memory block sizes in same set"
    else checkBlocksHomogeneous typeIndex size rest

/-- Check of a single set inside CheckSets,
src/ir_device_query_factory.cpp lines 251-300: the device-wide hole of the
set must not exceed max_hole, the register count must not exceed max_regs,
and all blocks must share the type index and size of the first block. -/
def checkOneSet (device : List TMemoryBlock)
    (typeInfo : TMemoryBlockType → Nat × Nat) (s : MBSet) :
    Except String Unit :=
  if GetMaxHoleSize device s.first s.last > (typeInfo (GetType s)).1 then
    Except.error "max hole count exceeded"
  else if GetRegCount s.first s.last > (typeInfo (GetType s)).2 then
    Except.error "max mb count exceeded"
  else checkBlocksHomogeneous (GetType s).Index (GetSize s) s.blocks

/-- CheckSets from src/ir_device_query_factory.cpp lines 245-308: walk the
input sets and raise on the first violating one; the input list itself is
never modified (the embedding is a pure function of it). -/
def CheckSets (device : List TMemoryBlock)
    (typeInfo : TMemoryBlockType → Nat × Nat) :
    List MBSet → Except String Unit
  | [] => Except.ok ()
  | s :: rest =>
    match checkOneSet device typeInfo s with
    | Except.error e => Except.error e
    | Except.ok _ => CheckSets device typeInfo rest

/-- Claim C6, specification side, written from the words of the claim: a set
is within limits when its largest gap between consecutive block addresses
(of the device-wide range spanned by the set) is at most max_hole, its
width last address - first address + 1 is at most max_regs, and no two of
its blocks differ in type index or in size. -/
def specSetWithinLimits (device : List TMemoryBlock)
    (typeInfo : TMemoryBlockType → Nat × Nat) (s : MBSet) : Prop :=
  specMaxGap ((StaticCreateMemoryBlockRange device s.first s.last).map
      TMemoryBlock.Address) ≤ (typeInfo (GetType s)).1 ∧
  s.last.Address - s.first.Address + 1 ≤ (typeInfo (GetType s)).2 ∧
  ∀ mb ∈ s.blocks, ∀ mc ∈ s.blocks,
    mb.BlockType.Index = mc.BlockType.Index ∧ mb.Size = mc.Size

/-! MergeSets (src/ir_device_query_factory.cpp lines 318-385). An entry of
the associated memory block list is a pair of an ordered block set
(represented as its sorted element list) and the list of contributing
virtual registers, kept abstract as a type parameter. -/

/-- Lambda noDuplicatesCondition from src/ir_device_query_factory.cpp lines
352-358: two sets may merge iff they are the same. -/
def noDuplicatesCondition (a b : List TMemoryBlock) : Bool := decide (a = b)

/-- Insertion into an ordered std set of blocks: keep the list sorted in
blockLt and do nothing when an equivalent element is present. -/
def setInsert (x : TMemoryBlock) : List TMemoryBlock → List TMemoryBlock
  | [] => [x]
  | y :: ys =>
    if blockLt x y then x :: y :: ys
    else if blockLt y x then y :: setInsert x ys
    else y :: ys

/-- Range insertion of a std set, src/ir_device_query_factory.cpp line 375:
insert every element of t into s. -/
def setUnion (s t : List TMemoryBlock) : List TMemoryBlock :=
  t.foldl (fun acc x => setInsert x acc) s

/-- Inner loop of MergeSets, src/ir_device_query_factory.cpp lines 366-380:
walk the entries after the current one; whenever the condition accepts the
current accumulated block set and the candidate, union the blocks, append
the virtual registers and drop the candidate, otherwise keep it. Returns
the final accumulated entry and the surviving remainder in order. -/
def innerMerge {α : Type} (cond : List TMemoryBlock → List TMemoryBlock → Bool) :
    List TMemoryBlock × List α → List (List TMemoryBlock × List α) →
      (List TMemoryBlock × List α) × List (List TMemoryBlock × List α)
  | acc, [] => (acc, [])
  | acc, e :: rest =>
    if cond acc.1 e.1 then
      innerMerge cond (setUnion acc.1 e.1, acc.2 ++ e.2) rest
    else
      let p := innerMerge cond acc rest
      (p.1, e :: p.2)

/-- Outer loop of MergeSets with explicit fuel (the fuel only bounds the
recursion depth; one unit per surviving entry, so the input length is
always enough, as the main theorem shows by never reaching the fuel-zero
arm on a nonempty list). -/
def mergeSetsLoopFuel {α : Type}
    (cond : List TMemoryBlock → List TMemoryBlock → Bool) :
    Nat → List (List TMemoryBlock × List α) →
      List (List TMemoryBlock × List α)
  | _, [] => []
  | 0, l => l
  | Nat.succ fuel, e :: rest =>
    let p := innerMerge cond e rest
    p.1 :: mergeSetsLoopFuel cond fuel p.2

/-- Merging loop of MergeSets, src/ir_device_query_factory.cpp lines
362-381, for a given merge condition (CheckSets runs before it and is
settled separately): repeatedly absorb into the front entry every later
entry the condition accepts, then continue past it. -/
def MergeSetsLoop {α : Type}
    (cond : List TMemoryBlock → List TMemoryBlock → Bool)
    (l : List (List TMemoryBlock × List α)) :
    List (List TMemoryBlock × List α) :=
  mergeSetsLoopFuel cond l.length l

/-- Claim C5, specification side, written from the words of the claim: group
the entries by identical memory block set, keeping the first-seen order of
distinct sets; each output entry carries the shared block set unchanged and
the concatenation, in input order, of the virtual register lists of the
entries that carry that set. -/
def noDuplicatesGrouping {α : Type} :
    List (List TMemoryBlock × List α) → List (List TMemoryBlock × List α)
  | [] => []
  | e :: rest =>
    (e.1, e.2 ++
        ((rest.filter fun x => decide (e.1 = x.1)).map Prod.snd).flatten) ::
      noDuplicatesGrouping (rest.filter fun x => !(decide (e.1 = x.1)))
termination_by l => l.length
decreasing_by
  simp only [List.length_cons]
  exact Nat.lt_succ_of_le (List.length_filter_le _ _)

/-- Concrete entry list for the C5 witness: three entries over two distinct
block sets, with virtual registers abstracted as numbers. -/
def wEntries : List (List TMemoryBlock × List Nat) :=
  [([wBlk 100], [0]), ([wBlk 103], [1]), ([wBlk 100], [2])]

/-! Memory block linkage (src/memory_block.cpp). The associated virtual
registers are kept abstract: a type parameter in the linkage variant, the
ordering key (a number) for the linkage state machine, and a bind entry
view for the caching predicate. -/

/-- External linkage of a memory block: absent, the device variant
(TSerialDeviceLinkage) or the register variant (TVirtualRegisterLinkage)
with its set of associated virtual registers. -/
inductive IExternalLinkage (α : Type) where
  | NoLinkage
  | SerialDeviceLinkage
  | VirtualRegisterLinkage (vregs : List α)
deriving DecidableEq, Repr

/-- Variant test: the linkage is the device variant. -/
def IExternalLinkage.isDeviceVariant {α : Type} : IExternalLinkage α → Bool
  | IExternalLinkage.SerialDeviceLinkage => true
  | _ => false

/-- Variant test: the linkage is the register variant. -/
def IExternalLinkage.isRegisterVariant {α : Type} : IExternalLinkage α → Bool
  | IExternalLinkage.VirtualRegisterLinkage _ => true
  | _ => false

/-- TMemoryBlock::InitExternalLinkage(PSerialDevice), src/memory_block.cpp
lines 11-60: when a device linkage is already installed return false and
keep it; otherwise overwrite whatever linkage is present with a device
linkage and return true. -/
def InitExternalLinkageDevice {α : Type} :
    IExternalLinkage α → Bool × IExternalLinkage α
  | IExternalLinkage.SerialDeviceLinkage =>
    (false, IExternalLinkage.SerialDeviceLinkage)
  | _ => (true, IExternalLinkage.SerialDeviceLinkage)

/-- TMemoryBlock::InitExternalLinkage(PVirtualRegister), src/memory_block.cpp
lines 62-185: when a register linkage is already installed return false and
keep it; otherwise overwrite whatever linkage is present (a device linkage
included, lines 179-184 only test for the register variant) with a fresh
register linkage holding only the given register, and return true. -/
def InitExternalLinkageRegister {α : Type} (vreg : α) :
    IExternalLinkage α → Bool × IExternalLinkage α
  | IExternalLinkage.VirtualRegisterLinkage vs =>
    (false, IExternalLinkage.VirtualRegisterLinkage vs)
  | _ => (true, IExternalLinkage.VirtualRegisterLinkage [vreg])

/-- Ordered insertion into the weak register set of a register linkage
(TVirtualRegisterLinkage::LinkWithImpl, a std set insert), with the
registers abstracted to their ordering keys. -/
def linkInsert (v : Nat) : List Nat → List Nat
  | [] => [v]
  | y :: ys =>
    if v < y then v :: y :: ys
    else if y < v then y :: linkInsert v ys
    else y :: ys

/-- TVirtualRegisterLinkage::LinkWith, src/memory_block.cpp lines 125-145,
as reached from AssociateWith: insert the new register into the weak set.
The source additionally asserts device and type agreement and raises on an
order-equivalent distinct register; with registers abstracted to keys that
case coincides with re-association, which the source also asserts away.
The device-linkage LinkWith (line 37-40, assert false) is unreachable from
AssociateWith and is modelled as the identity. -/
def LinkWith (v : Nat) : IExternalLinkage Nat → IExternalLinkage Nat
  | IExternalLinkage.VirtualRegisterLinkage vs =>
    IExternalLinkage.VirtualRegisterLinkage (linkInsert v vs)
  | l => l

/-- TMemoryBlock::AssociateWith, src/memory_block.cpp lines 235-240: when
InitExternalLinkage(vreg) reports that it installed a linkage, done;
otherwise extend the existing register linkage through LinkWith. -/
def AssociateWith (v : Nat) (l : IExternalLinkage Nat) :
    IExternalLinkage Nat :=
  let p := InitExternalLinkageRegister v l
  if p.1 then p.2 else LinkWith v p.2

/-! Cache necessity (src/memory_block.cpp lines 159-176, 273-276). -/

/-- View of one associated virtual register as the caching predicate
consults it: the register read-only flag and its bind range
[BitStart, BitEnd) inside the block (TIRBindInfo). -/
structure TRegisterBindEntry where
  ReadOnly : Bool
  BitStart : Nat
  BitEnd : Nat
deriving DecidableEq, Repr

/-- TVirtualRegisterLinkage::NeedsCaching, src/memory_block.cpp lines
159-176: some associated register is writable (neither the block type nor
that register is read-only) and its bind info differs from the full
coverage [0, size*8). -/
def virtualRegisterLinkageNeedsCaching (mb : TMemoryBlock)
    (vregs : List TRegisterBindEntry) : Bool :=
  vregs.any fun v =>
    (!mb.BlockType.ReadOnly && !v.ReadOnly) &&
    !(decide (v.BitStart = 0 ∧ v.BitEnd = mb.Size * 8))

/-- TMemoryBlock::NeedsCaching, src/memory_block.cpp lines 273-276: false
without linkage, false for the device variant (lines 47-50), and the
register linkage predicate otherwise. -/
def TMemoryBlock.NeedsCaching (mb : TMemoryBlock) :
    IExternalLinkage TRegisterBindEntry → Bool
  | IExternalLinkage.NoLinkage => false
  | IExternalLinkage.SerialDeviceLinkage => false
  | IExternalLinkage.VirtualRegisterLinkage vs =>
    virtualRegisterLinkageNeedsCaching mb vs

/-- Claim C4, specification side, written from the words of the claim: the
block is writable and at least one associated register does not span the
full block bit width [0, size*8). -/
def specNeedsCachingC4 (mb : TMemoryBlock)
    (vregs : List TRegisterBindEntry) : Prop :=
  mb.BlockType.ReadOnly = false ∧
  ∃ v ∈ vregs, ¬(v.BitStart = 0 ∧ v.BitEnd = mb.Size * 8)

instance (mb : TMemoryBlock) (vregs : List TRegisterBindEntry) :
    Decidable (specNeedsCachingC4 mb vregs) := by
  unfold specNeedsCachingC4; infer_instance

/-- Concrete block for the C4 counterexample: writable type, two bytes. -/
def wCacheBlock : TMemoryBlock := wBlk 10

/-- Concrete associated registers for the C4 counterexample: a read-only
register covering half the block, and a writable register covering the
whole block. -/
def wCacheRegs : List TRegisterBindEntry :=
  [{ ReadOnly := true, BitStart := 0, BitEnd := 8 },
   { ReadOnly := false, BitStart := 0, BitEnd := 16 }]

/-! Virtual register runtime state (src/virtual_register.cpp). -/

/-- Error state of a virtual register: the sentinel UnknownErrorState or a
flag set over ReadError and WriteError (EErrorState as consumed by
UpdateReadError and UpdateWriteError; Flags false false is NoError). -/
inductive EErrorState where
  | UnknownErrorState
  | Flags (read write : Bool)
deriving DecidableEq, Repr

/-- Whether the ReadError flag is present. -/
def EErrorState.hasReadError : EErrorState → Bool
  | EErrorState.Flags r _ => r
  | _ => false

/-- Whether the WriteError flag is present. -/
def EErrorState.hasWriteError : EErrorState → Bool
  | EErrorState.Flags _ w => w
  | _ => false

/-- Publish flags consulted by the claims (EPublishData restricted to the
Value and Error bits). -/
structure TPublishFlags where
  value : Bool
  error : Bool
deriving DecidableEq, Repr

/-- Query status enum (EQueryStatus). -/
inductive EQueryStatus where
  | NotExecuted
  | Ok
  | DeviceError
  | UnknownError
deriving DecidableEq, Repr

/-- Mutable state of a virtual register together with its write query, as
consulted by AcceptDeviceValue, the error updates and Flush. Formatter
values (CurrentValue, ValueToWrite, the value held by the write query) are
modelled by the raw 64-bit word they hold; the embedded paths only compare
and assign them, so Nat is faithful. -/
structure TVirtualRegisterState where
  Poll : Bool
  Dirty : Bool
  HasErrorValue : Bool
  ErrorValue : Nat
  CurrentValue : Nat
  ValueToWrite : Nat
  ErrorState : EErrorState
  ChangedPublishData : TPublishFlags
  ValueIsRead : Bool
  ValueWasAccepted : Bool
  WriteQueryStatus : EQueryStatus
  WriteQueryValue : Nat
deriving DecidableEq, Repr

namespace TVirtualRegister

/-- TVirtualRegister::NeedToPoll, src/virtual_register.cpp lines 403-406:
the register polls when the Poll flag is set and it is not dirty. -/
def NeedToPoll (s : TVirtualRegisterState) : Bool := s.Poll && !s.Dirty

/-- Normalisation step shared by the two error updates,
src/virtual_register.cpp lines 505-507 and 527-529: the sentinel becomes
the empty flag set, anything else is kept. -/
def normalizeErrorState : EErrorState → EErrorState
  | EErrorState.UnknownErrorState => EErrorState.Flags false false
  | e => e

/-- Add or Remove of the ReadError flag, src/virtual_register.cpp lines
509-513 (only reached on normalised states). -/
def setReadErrorFlag (error : Bool) : EErrorState → EErrorState
  | EErrorState.Flags _ w => EErrorState.Flags error w
  | e => e

/-- Add or Remove of the WriteError flag, src/virtual_register.cpp lines
531-535 (only reached on normalised states). -/
def setWriteErrorFlag (error : Bool) : EErrorState → EErrorState
  | EErrorState.Flags r _ => EErrorState.Flags r error
  | e => e

/-- TVirtualRegister::UpdateReadError, src/virtual_register.cpp lines
501-521: remember the previous state, normalise the sentinel to the empty
flag set, set or clear the ReadError flag, and add the Error publish flag
iff the resulting error state differs from the previous one. -/
def UpdateReadError (error : Bool) (s : TVirtualRegisterState) :
    TVirtualRegisterState :=
  { s with
    ErrorState := setReadErrorFlag error (normalizeErrorState s.ErrorState)
    ChangedPublishData :=
      if setReadErrorFlag error (normalizeErrorState s.ErrorState) ≠
          s.ErrorState then
        { s.ChangedPublishData with error := true }
      else s.ChangedPublishData }

/-- TVirtualRegister::UpdateWriteError, src/virtual_register.cpp lines
523-543: the WriteError counterpart of UpdateReadError. -/
def UpdateWriteError (error : Bool) (s : TVirtualRegisterState) :
    TVirtualRegisterState :=
  { s with
    ErrorState := setWriteErrorFlag error (normalizeErrorState s.ErrorState)
    ChangedPublishData :=
      if setWriteErrorFlag error (normalizeErrorState s.ErrorState) ≠
          s.ErrorState then
        { s.ChangedPublishData with error := true }
      else s.ChangedPublishData }

/-- Setting of ValueIsRead and ValueWasAccepted at the top of
AcceptDeviceValue, src/virtual_register.cpp lines 269-274 (the first-poll
marker is read before this update, which the callers below respect by
testing the original state). -/
def markAccepted (s : TVirtualRegisterState) : TVirtualRegisterState :=
  { s with ValueIsRead := true, ValueWasAccepted := true }

/-- Add of the Value publish flag, src/virtual_register.cpp lines 291 and
296. -/
def flagValueChanged (s : TVirtualRegisterState) : TVirtualRegisterState :=
  { s with ChangedPublishData := { s.ChangedPublishData with value := true } }

/-- TVirtualRegister::AcceptDeviceValue, src/virtual_register.cpp lines
263-299: return unchanged unless polling; set ValueIsRead, remember and set
the first-poll marker; on the configured error value update the read error;
otherwise store a differing value and flag Value (also flagged on the first
poll for an unchanged value), then clear the read error. -/
def AcceptDeviceValue (new_value : Nat) (s : TVirtualRegisterState) :
    TVirtualRegisterState :=
  if !(NeedToPoll s) then s
  else if s.HasErrorValue && decide (s.ErrorValue = new_value) then
    UpdateReadError true (markAccepted s)
  else if decide (s.CurrentValue ≠ new_value) then
    UpdateReadError false
      (flagValueChanged { markAccepted s with CurrentValue := new_value })
  else if !s.ValueWasAccepted then
    UpdateReadError false (flagValueChanged (markAccepted s))
  else
    UpdateReadError false (markAccepted s)

/-- TVirtualRegister::GetValueContext, src/virtual_register.cpp lines
490-493: the value context carries the memory blocks, the word order and
the CurrentValue formatter; the claims consult only the carried value. -/
def GetValueContext (s : TVirtualRegisterState) : Nat := s.CurrentValue

/-- TVirtualRegister::GetValueToWriteContext, src/virtual_register.cpp
lines 495-499: the context carrying the ValueToWrite formatter. -/
def GetValueToWriteContext (s : TVirtualRegisterState) : Nat := s.ValueToWrite

/-- TVirtualRegister::Flush, src/virtual_register.cpp lines 418-432: when
dirty, clear the flag, reset the write query status to NotExecuted, store
the value context into the query (the source passes GetValueContext, which
carries CurrentValue, at line 426), execute the query on the device
(modelled as a function from the written value to the resulting status)
and update the write error from whether the status is not Ok. -/
def Flush (execute : Nat → EQueryStatus) (s : TVirtualRegisterState) :
    TVirtualRegisterState :=
  if s.Dirty then
    let s1 :=
      { s with
        Dirty := false
        WriteQueryStatus := EQueryStatus.NotExecuted }
    let s2 := { s1 with WriteQueryValue := GetValueContext s1 }
    let s3 := { s2 with WriteQueryStatus := execute s2.WriteQueryValue }
    UpdateWriteError (decide (s3.WriteQueryStatus ≠ EQueryStatus.Ok)) s3
  else s

end TVirtualRegister

/-- Concrete register state for the C1 failing input: a writable dirty
register whose CurrentValue is 5 while ValueToWrite is 7. -/
def wFlushState : TVirtualRegisterState :=
  { Poll := true, Dirty := true, HasErrorValue := false, ErrorValue := 0,
    CurrentValue := 5, ValueToWrite := 7,
    ErrorState := EErrorState.Flags false false,
    ChangedPublishData := { value := false, error := false },
    ValueIsRead := false, ValueWasAccepted := true,
    WriteQueryStatus := EQueryStatus.Ok, WriteQueryValue := 0 }

/-- Concrete device execution that always reports Ok. -/
def wExecuteOk : Nat → EQueryStatus := fun _ => EQueryStatus.Ok

/-- Concrete register state for the C8 witness: polled, never accepted,
no configured error value, CurrentValue 0. -/
def wPollState : TVirtualRegisterState :=
  { Poll := true, Dirty := false, HasErrorValue := false, ErrorValue := 0,
    CurrentValue := 0, ValueToWrite := 0,
    ErrorState := EErrorState.UnknownErrorState,
    ChangedPublishData := { value := false, error := false },
    ValueIsRead := false, ValueWasAccepted := false,
    WriteQueryStatus := EQueryStatus.NotExecuted, WriteQueryValue := 0 }

/-- Concrete register state for the C10 witness: the Poll flag is clear. -/
def wNoPollState : TVirtualRegisterState := { wPollState with Poll := false }

/-- Concrete register state for the C9 witness: the error state still holds
the sentinel. -/
def wErrState : TVirtualRegisterState :=
  { wPollState with ErrorState := EErrorState.UnknownErrorState }

/-! ## Theorems -/

theorem getMaxHoleSizeLoop_eq (l : List Nat) :
    ∀ hole prev, getMaxHoleSizeLoop hole prev l = max hole (specMaxGap (prev :: l)) := by
  induction l with
  | nil =>
    intro hole prev
    simp [getMaxHoleSizeLoop, specMaxGap]
  | cons a rest ih =>
    intro hole prev
    rw [getMaxHoleSizeLoop, ih]
    have hz : specMaxGap (prev :: a :: rest) =
        max (a - prev - 1) (specMaxGap (a :: rest)) := by
      simp [specMaxGap]
    rw [hz, Nat.max_assoc]

/-- The imperative hole loop computes exactly the maximum gap between
consecutive addresses of the range. -/
theorem GetMaxHoleSize_eq_specMaxGap (device : List TMemoryBlock)
    (first last_ : TMemoryBlock) :
    GetMaxHoleSize device first last_ =
      specMaxGap ((StaticCreateMemoryBlockRange device first last_).map
        TMemoryBlock.Address) := by
  unfold GetMaxHoleSize
  cases h : (StaticCreateMemoryBlockRange device first last_).map
      TMemoryBlock.Address with
  | nil => simp [specMaxGap]
  | cons a rest =>
    show getMaxHoleSizeLoop 0 a rest = specMaxGap (a :: rest)
    rw [getMaxHoleSizeLoop_eq]
    simp

/-- C7: for every memory block type and the Read operation, the computed
per-type limits are exactly the ones the claim states: max_regs is the
minimum of the configured device read limit and the protocol maximum when
the device limit is configured and the protocol maximum alone otherwise,
with the protocol maximum chosen by single-bit-ness; max_hole is the
single-bit or register hole tolerance of the device under Minify and 0
under NoDuplicates. -/
theorem getMaxHoleAndRegs_read_spec_C7
    (policy : EQueryGenerationPolicy) (deviceConfig : TDeviceConfig)
    (protocolInfo : TProtocolInfo) (type : TMemoryBlockType) :
    getMaxHoleAndRegs policy EQueryOperation.Read deviceConfig protocolInfo type =
      (specMaxHole policy deviceConfig protocolInfo type,
       specReadMaxRegs deviceConfig protocolInfo type) := by
  cases policy <;>
    simp [getMaxHoleAndRegs, specMaxHole, specReadMaxRegs, specProtocolReadMaximum]

/-- Between blocks of equal type index, the source ordering reduces to
address comparison. -/
theorem blockLt_iff_addr {x y : TMemoryBlock}
    (h : x.BlockType.Index = y.BlockType.Index) :
    blockLt x y ↔ x.Address < y.Address := by
  simp [blockLt, h]

/-- In a homogeneous set the last block carries the type index of the first. -/
theorem MBSet.last_index (s : MBSet) (ht : s.HomogeneousType) :
    s.last.BlockType.Index = s.hd.BlockType.Index :=
  ht s.last (List.getLast_mem _)

/-- When the two first blocks agree on the type index, the chosen hull start
is the block with the minimal address. -/
theorem mergeFirst_address (a b : MBSet)
    (h : a.first.BlockType.Index = b.first.BlockType.Index) :
    (mergeFirst a b).Address = min a.first.Address b.first.Address := by
  unfold mergeFirst
  split
  · next hlt =>
    rw [blockLt_iff_addr h] at hlt
    omega
  · next hlt =>
    rw [blockLt_iff_addr h] at hlt
    omega

/-- The chosen hull start carries the common type index. -/
theorem mergeFirst_index (a b : MBSet)
    (h : a.first.BlockType.Index = b.first.BlockType.Index) :
    (mergeFirst a b).BlockType.Index = a.first.BlockType.Index := by
  unfold mergeFirst
  split
  · rfl
  · exact h.symm

/-- When the two last blocks agree on the type index, the chosen hull end is
the block with the maximal address. -/
theorem mergeLast_address (a b : MBSet)
    (h : b.last.BlockType.Index = a.last.BlockType.Index) :
    (mergeLast a b).Address = max a.last.Address b.last.Address := by
  unfold mergeLast
  split
  · next hlt =>
    rw [blockLt_iff_addr h] at hlt
    omega
  · next hlt =>
    rw [blockLt_iff_addr h] at hlt
    omega

/-- The chosen hull end carries the type index of the last block of a. -/
theorem mergeLast_index (a b : MBSet)
    (h : b.last.BlockType.Index = a.last.BlockType.Index) :
    (mergeLast a b).BlockType.Index = a.last.BlockType.Index := by
  unfold mergeLast
  split
  · rfl
  · exact h

/-- C2: under the Minify policy, two homogeneous block sets satisfy
the merge condition of the source iff their memory block types are equal,
their block sizes are equal, the address-wise hull [min first address,
max last address] has width last - first + 1 at most max_regs, and the
largest gap between consecutive addresses of the device-wide set of blocks
of that type falling within the hull is at most max_hole. The gap is
evaluated over all blocks the device has in that range, not only over the
union of the two sets: the device list is a parameter of both sides. -/
theorem mergeCondition_iff_spec_C2 (device : List TMemoryBlock)
    (typeInfo : TMemoryBlockType → Nat × Nat) (a b : MBSet)
    (hta : a.HomogeneousType) (htb : b.HomogeneousType) :
    mergeCondition device typeInfo a b = true ↔
      specMergeable device typeInfo a b := by
  by_cases hT : (GetType a).Index = (GetType b).Index
  case neg =>
    simp [mergeCondition, TMemoryBlockType.typeEqual, hT, specMergeable]
  case pos =>
    have h1 : a.first.BlockType.Index = b.first.BlockType.Index := hT
    have hLa : a.last.BlockType.Index = a.first.BlockType.Index :=
      MBSet.last_index a hta
    have hLb : b.last.BlockType.Index = b.first.BlockType.Index :=
      MBSet.last_index b htb
    have h2 : b.last.BlockType.Index = a.last.BlockType.Index := by
      rw [hLa, hLb, h1]
    have hfa := mergeFirst_address a b h1
    have hfi := mergeFirst_index a b h1
    have hla := mergeLast_address a b h2
    have hrange : StaticCreateMemoryBlockRange device (mergeFirst a b)
        (mergeLast a b) = specDeviceBlocksInHull device (GetType a).Index
          (specHullFirst a b) (specHullLast a b) := by
      unfold StaticCreateMemoryBlockRange specDeviceBlocksInHull
        specHullFirst specHullLast
      apply List.filter_congr
      intro mb _
      rw [hfi, hfa, hla]
      rfl
    have q1 : GetMaxHoleSize device (mergeFirst a b) (mergeLast a b) =
        specMaxGap ((specDeviceBlocksInHull device (GetType a).Index
          (specHullFirst a b) (specHullLast a b)).map TMemoryBlock.Address) := by
      rw [GetMaxHoleSize_eq_specMaxGap, hrange]
    have q2 : (mergeLast a b).Address - (mergeFirst a b).Address + 1 =
        specHullLast a b - specHullFirst a b + 1 := by
      unfold specHullFirst specHullLast
      rw [hfa, hla]
    unfold mergeCondition
    rw [if_neg (not_not_intro (show (GetType a).typeEqual (GetType b) from hT))]
    simp only [Bool.and_eq_true, decide_eq_true_eq]
    rw [q1, q2]
    unfold specMergeable
    constructor
    · rintro ⟨⟨hs, hh⟩, hr⟩
      exact ⟨hT, hs, hr, hh⟩
    · rintro ⟨_, hs, hr, hh⟩
      exact ⟨⟨hs, hh⟩, hr⟩

/-- C2 witness: the theorem applied at a concrete device with blocks at
100, 101 and 103, merging the singleton sets {100} and {103} under
max_hole 1 and max_regs 10. The union of the two sets alone has a gap of 2,
yet the merge condition holds because the device-wide block at 101 fills
the hull, demonstrating the device-wide gap evaluation. -/
theorem mergeCondition_iff_spec_C2_witness :
    specMergeable wDevice wTypeInfo wSetA wSetB :=
  (mergeCondition_iff_spec_C2 wDevice wTypeInfo wSetA wSetB
    (by decide) (by decide)).mp (by decide)

/-- The homogeneity loop of CheckSets accepts exactly the lists whose blocks
all carry the reference type index and size. -/
theorem checkBlocksHomogeneous_ok (typeIndex size : Nat)
    (l : List TMemoryBlock) :
    checkBlocksHomogeneous typeIndex size l = Except.ok () ↔
      ∀ mb ∈ l, mb.BlockType.Index = typeIndex ∧ mb.Size = size := by
  induction l with
  | nil => simp [checkBlocksHomogeneous]
  | cons mb rest ih =>
    rw [checkBlocksHomogeneous]
    split_ifs with h1 h2
    · constructor
      · intro h; simp at h
      · intro h; exact absurd (h mb (List.mem_cons_self mb rest)).1 h1
    · constructor
      · intro h; simp at h
      · intro h; exact absurd (h mb (List.mem_cons_self mb rest)).2 h2
    · rw [ih]
      constructor
      · intro h x hx
        rcases List.mem_cons.mp hx with rfl | hx
        · exact ⟨not_not.mp h1, not_not.mp h2⟩
        · exact h x hx
      · intro h x hx
        exact h x (List.mem_cons_of_mem _ hx)

/-- All blocks agreeing with the head block is the same as no two blocks of
the set differing in type index or size. -/
theorem MBSet.homogeneous_pairwise_iff (s : MBSet) :
    (∀ mb ∈ s.blocks,
        mb.BlockType.Index = s.hd.BlockType.Index ∧ mb.Size = s.hd.Size) ↔
      (∀ mb ∈ s.blocks, ∀ mc ∈ s.blocks,
        mb.BlockType.Index = mc.BlockType.Index ∧ mb.Size = mc.Size) := by
  constructor
  · intro h mb hmb mc hmc
    obtain ⟨h1, h2⟩ := h mb hmb
    obtain ⟨h3, h4⟩ := h mc hmc
    exact ⟨h1.trans h3.symm, h2.trans h4.symm⟩
  · intro h mb hmb
    exact h mb hmb s.hd (by simp [MBSet.blocks])

/-- One set passes CheckSets exactly when it is within the claimed limits. -/
theorem checkOneSet_ok (device : List TMemoryBlock)
    (typeInfo : TMemoryBlockType → Nat × Nat) (s : MBSet) :
    checkOneSet device typeInfo s = Except.ok () ↔
      specSetWithinLimits device typeInfo s := by
  have hg := GetMaxHoleSize_eq_specMaxGap device s.first s.last
  unfold checkOneSet
  split_ifs with h1 h2
  · constructor
    · intro h; simp at h
    · rintro ⟨c1, -, -⟩
      rw [hg] at h1
      omega
  · constructor
    · intro h; simp at h
    · rintro ⟨-, c2, -⟩
      unfold GetRegCount at h2
      omega
  · rw [checkBlocksHomogeneous_ok]
    unfold specSetWithinLimits
    constructor
    · intro h
      refine ⟨?_, ?_, ?_⟩
      · rw [← hg]; omega
      · unfold GetRegCount at h2; omega
      · exact (MBSet.homogeneous_pairwise_iff s).mp h
    · rintro ⟨-, -, hp⟩
      exact (MBSet.homogeneous_pairwise_iff s).mpr hp

/-- C6: CheckSets, run on the input before any merging, succeeds iff every
input memory block set is within limits: its largest gap between
consecutive block addresses is at most max_hole, its width (last address -
first address + 1) is at most max_regs, and no two of its blocks differ in
type index or size; equivalently, it raises a configuration error iff some
input set violates one of these limits. The embedded CheckSets is a pure
function of the input list, which it never modifies. -/
theorem CheckSets_ok_iff_C6 (device : List TMemoryBlock)
    (typeInfo : TMemoryBlockType → Nat × Nat) (sets : List MBSet) :
    CheckSets device typeInfo sets = Except.ok () ↔
      ∀ s ∈ sets, specSetWithinLimits device typeInfo s := by
  induction sets with
  | nil => simp [CheckSets]
  | cons s rest ih =>
    rw [CheckSets]
    cases hcs : checkOneSet device typeInfo s with
    | error e =>
      constructor
      · intro h; simp at h
      · intro h
        exact absurd ((checkOneSet_ok device typeInfo s).mpr
          (h s (List.mem_cons_self s rest))) (by rw [hcs]; simp)
    | ok u =>
      cases u
      rw [ih]
      constructor
      · intro h x hx
        rcases List.mem_cons.mp hx with rfl | hx
        · exact (checkOneSet_ok device typeInfo x).mp hcs
        · exact h x hx
      · intro h x hx
        exact h x (List.mem_cons_of_mem _ hx)

/-- The block ordering is irreflexive. -/
theorem blockLt_irrefl (x : TMemoryBlock) : ¬ blockLt x x := by
  unfold blockLt
  omega

/-- The block ordering is asymmetric. -/
theorem blockLt_asymm {x y : TMemoryBlock} (h : blockLt x y) :
    ¬ blockLt y x := by
  unfold blockLt at h ⊢
  omega

/-- Inserting an element already present into a sorted set list is the
identity, matching std set insertion. -/
theorem setInsert_mem {x : TMemoryBlock} {s : List TMemoryBlock}
    (hs : s.Pairwise blockLt) (hx : x ∈ s) : setInsert x s = s := by
  induction s with
  | nil => cases hx
  | cons y ys ih =>
    obtain ⟨hy, hys⟩ := List.pairwise_cons.mp hs
    rw [setInsert]
    rcases List.mem_cons.mp hx with rfl | hx
    · rw [if_neg (blockLt_irrefl x), if_neg (blockLt_irrefl x)]
    · have h1 : blockLt y x := hy x hx
      rw [if_neg (blockLt_asymm h1), if_pos h1, ih hys hx]

/-- Unioning a sorted set list with a subset of itself is the identity. -/
theorem setUnion_subset {s t : List TMemoryBlock}
    (hs : s.Pairwise blockLt) (ht : ∀ x ∈ t, x ∈ s) : setUnion s t = s := by
  induction t with
  | nil => rfl
  | cons x ts ih =>
    unfold setUnion at ih ⊢
    rw [List.foldl_cons, setInsert_mem hs (ht x (List.mem_cons_self x ts))]
    exact ih fun z hz => ht z (List.mem_cons_of_mem _ hz)

/-- Characterization of the inner merge loop under the NoDuplicates
condition: the accumulated entry absorbs, in input order, the register
lists of exactly the entries carrying the same block set, and the survivors
are exactly the entries carrying a different block set. -/
theorem innerMerge_noDup {α : Type} (rest : List (List TMemoryBlock × List α))
    (s : List TMemoryBlock) (vs : List α) (hs : s.Pairwise blockLt) :
    innerMerge noDuplicatesCondition (s, vs) rest =
      ((s, vs ++ ((rest.filter fun x => decide (s = x.1)).map Prod.snd).flatten),
       rest.filter fun x => !(decide (s = x.1))) := by
  induction rest generalizing vs with
  | nil => simp [innerMerge]
  | cons e rest ih =>
    rw [innerMerge]
    by_cases h : s = e.1
    · rw [if_pos (by simp [noDuplicatesCondition, h])]
      have hu : setUnion s e.1 = s := by
        subst h
        exact setUnion_subset hs fun x hx => hx
      rw [hu, ih (vs ++ e.2)]
      simp [h, List.filter_cons, List.append_assoc]
    · rw [if_neg (by simp [noDuplicatesCondition, h]), ih vs]
      simp [h, List.filter_cons]

/-- With fuel at least the input length, the merging loop under the
NoDuplicates condition computes exactly the grouping by identical block
set. -/
theorem mergeSetsLoopFuel_noDup {α : Type} (fuel : Nat)
    (l : List (List TMemoryBlock × List α)) (hf : l.length ≤ fuel)
    (h : ∀ e ∈ l, e.1.Pairwise blockLt) :
    mergeSetsLoopFuel noDuplicatesCondition fuel l =
      noDuplicatesGrouping l := by
  induction fuel generalizing l with
  | zero =>
    cases l with
    | nil => simp [mergeSetsLoopFuel, noDuplicatesGrouping]
    | cons e rest => simp at hf
  | succ f ih =>
    cases l with
    | nil => simp [mergeSetsLoopFuel, noDuplicatesGrouping]
    | cons e rest =>
      obtain ⟨e1, e2⟩ := e
      have he : e1.Pairwise blockLt :=
        h (e1, e2) (List.mem_cons_self _ rest)
      have hi := innerMerge_noDup rest e1 e2 he
      show (innerMerge noDuplicatesCondition (e1, e2) rest).1 ::
          mergeSetsLoopFuel noDuplicatesCondition f
            (innerMerge noDuplicatesCondition (e1, e2) rest).2 =
        noDuplicatesGrouping ((e1, e2) :: rest)
      rw [hi]
      have hfB : (rest.filter fun x => !(decide (e1 = x.1))).length ≤ f := by
        have h1 : rest.length ≤ f := by
          simpa using Nat.succ_le_succ_iff.mp (by simpa using hf)
        exact le_trans (List.length_filter_le _ _) h1
      have hB : ∀ x ∈ rest.filter fun x => !(decide (e1 = x.1)),
          x.1.Pairwise blockLt := by
        intro x hx
        exact h x (List.mem_cons_of_mem _ (List.mem_of_mem_filter hx))
      rw [ih _ hfB hB]
      simp [noDuplicatesGrouping]

/-- The grouping has one output entry per distinct block set of the input. -/
theorem noDuplicatesGrouping_length {α : Type}
    (l : List (List TMemoryBlock × List α)) :
    (noDuplicatesGrouping l).length = (l.map Prod.fst).toFinset.card := by
  match l with
  | [] => simp [noDuplicatesGrouping]
  | e :: rest =>
    have ihb := noDuplicatesGrouping_length
      (rest.filter fun x => !(decide (e.1 = x.1)))
    have hBf : ((rest.filter fun x => !(decide (e.1 = x.1))).map
        Prod.fst).toFinset = ((rest.map Prod.fst).toFinset).erase e.1 := by
      ext s
      simp only [List.mem_toFinset, List.mem_map, List.mem_filter,
        Finset.mem_erase, Bool.not_eq_eq_eq_not, Bool.not_true,
        decide_eq_false_iff_not]
      constructor
      · rintro ⟨x, ⟨hx, hne⟩, rfl⟩
        exact ⟨fun hc => hne hc.symm, x, hx, rfl⟩
      · rintro ⟨hne, x, hx, rfl⟩
        exact ⟨x, ⟨hx, fun hc => hne hc.symm⟩, rfl⟩
    simp only [noDuplicatesGrouping, List.length_cons]
    rw [ihb, hBf]
    simp only [List.map_cons, List.toFinset_cons]
    rw [show insert e.1 ((rest.map Prod.fst).toFinset) =
        insert e.1 (((rest.map Prod.fst).toFinset).erase e.1) from by
      ext s
      simp only [Finset.mem_insert, Finset.mem_erase]
      tauto]
    rw [Finset.card_insert_of_not_mem (Finset.not_mem_erase _ _)]
termination_by l.length
decreasing_by
  simp only [List.length_cons]
  exact Nat.lt_succ_of_le (List.length_filter_le _ _)

/-- The concatenation of the virtual register lists of the grouped output is
a permutation of the concatenation of the input register lists. -/
theorem noDuplicatesGrouping_perm {α : Type}
    (l : List (List TMemoryBlock × List α)) :
    ((noDuplicatesGrouping l).map Prod.snd).flatten.Perm
      ((l.map Prod.snd).flatten) := by
  match l with
  | [] => simp [noDuplicatesGrouping]
  | e :: rest =>
    have ihb := noDuplicatesGrouping_perm
      (rest.filter fun x => !(decide (e.1 = x.1)))
    have hAB : List.Perm ((rest.filter fun x => decide (e.1 = x.1)) ++
        (rest.filter fun x => !(decide (e.1 = x.1)))) rest :=
      List.filter_append_perm _ rest
    have h1 : List.Perm
        (((rest.filter fun x => decide (e.1 = x.1)).map Prod.snd).flatten ++
          ((noDuplicatesGrouping (rest.filter fun x =>
            !(decide (e.1 = x.1)))).map Prod.snd).flatten)
        (((rest.filter fun x => decide (e.1 = x.1)).map Prod.snd).flatten ++
          ((rest.filter fun x => !(decide (e.1 = x.1))).map
            Prod.snd).flatten) :=
      List.Perm.append_left _ ihb
    have h3 : List.Perm ((((rest.filter fun x => decide (e.1 = x.1)) ++
        (rest.filter fun x => !(decide (e.1 = x.1)))).map
          Prod.snd).flatten) ((rest.map Prod.snd).flatten) :=
      (hAB.map Prod.snd).flatten
    have h4 : List.Perm
        (((rest.filter fun x => decide (e.1 = x.1)).map Prod.snd).flatten ++
          ((rest.filter fun x => !(decide (e.1 = x.1))).map
            Prod.snd).flatten) ((rest.map Prod.snd).flatten) := by
      rw [← List.flatten_append, ← List.map_append]
      exact h3
    simp only [noDuplicatesGrouping, List.map_cons, List.flatten_cons]
    rw [List.append_assoc]
    exact List.Perm.append_left _ (h1.trans h4)
termination_by l.length
decreasing_by
  simp only [List.length_cons]
  exact Nat.lt_succ_of_le (List.length_filter_le _ _)

/-- Every output entry of the grouping carries a block set that already
appeared as the block set of some input entry. -/
theorem noDuplicatesGrouping_mem_fst {α : Type}
    (l : List (List TMemoryBlock × List α)) :
    ∀ q ∈ noDuplicatesGrouping l, q.1 ∈ l.map Prod.fst := by
  match l with
  | [] =>
    intro q hq
    simp [noDuplicatesGrouping] at hq
  | e :: rest =>
    intro q hq
    have hrec := noDuplicatesGrouping_mem_fst
      (rest.filter fun x => !(decide (e.1 = x.1)))
    simp only [noDuplicatesGrouping, List.mem_cons] at hq
    rcases hq with rfl | hq
    · simp
    · have hm := hrec q hq
      simp only [List.mem_map, List.mem_filter, List.map_cons,
        List.mem_cons] at hm ⊢
      obtain ⟨x, ⟨hx, -⟩, hxe⟩ := hm
      exact Or.inr ⟨x, hx, hxe⟩
termination_by l.length
decreasing_by
  simp only [List.length_cons]
  exact Nat.lt_succ_of_le (List.length_filter_le _ _)

/-- C5: under the NoDuplicates policy the merging loop groups entries by
identical memory block set and only by that: the result equals the
first-seen-order grouping whose entries hold the shared block set and the
in-input-order concatenation of the register lists of the entries carrying
that set; consequently, with m distinct block sets the output has exactly m
entries, the output register lists concatenate to a permutation of the
input ones, and no output entry carries a block set (hence a block) that
was not already the block set of one of its originating entries. -/
theorem mergeSets_noDuplicates_C5 {α : Type}
    (l : List (List TMemoryBlock × List α))
    (h : ∀ e ∈ l, e.1.Pairwise blockLt) :
    MergeSetsLoop noDuplicatesCondition l = noDuplicatesGrouping l ∧
    (MergeSetsLoop noDuplicatesCondition l).length =
      (l.map Prod.fst).toFinset.card ∧
    ((MergeSetsLoop noDuplicatesCondition l).map Prod.snd).flatten.Perm
      ((l.map Prod.snd).flatten) ∧
    ∀ q ∈ MergeSetsLoop noDuplicatesCondition l, q.1 ∈ l.map Prod.fst := by
  have he : MergeSetsLoop noDuplicatesCondition l = noDuplicatesGrouping l :=
    mergeSetsLoopFuel_noDup l.length l le_rfl h
  refine ⟨he, ?_, ?_, ?_⟩
  · rw [he]
    exact noDuplicatesGrouping_length l
  · rw [he]
    exact noDuplicatesGrouping_perm l
  · rw [he]
    exact noDuplicatesGrouping_mem_fst l

/-- C5 witness: the theorem applied to three concrete entries over two
distinct block sets (the first and third entry share a set). -/
theorem mergeSets_noDuplicates_C5_witness :
    MergeSetsLoop noDuplicatesCondition wEntries =
      noDuplicatesGrouping wEntries ∧
    (MergeSetsLoop noDuplicatesCondition wEntries).length =
      (wEntries.map Prod.fst).toFinset.card ∧
    ((MergeSetsLoop noDuplicatesCondition wEntries).map
      Prod.snd).flatten.Perm ((wEntries.map Prod.snd).flatten) ∧
    ∀ q ∈ MergeSetsLoop noDuplicatesCondition wEntries,
      q.1 ∈ wEntries.map Prod.fst :=
  mergeSets_noDuplicates_C5 wEntries (by decide)

/-- C3 counterexample: a block holding the device linkage variant, when
associated with a virtual register, switches to the register variant: the
claim that the installed variant is never switched to the other variant is
false on the code. -/
theorem associateWith_switches_variant_C3 :
    (IExternalLinkage.SerialDeviceLinkage :
      IExternalLinkage Nat).isDeviceVariant = true ∧
    (AssociateWith 0 IExternalLinkage.SerialDeviceLinkage).isRegisterVariant
      = true ∧
    AssociateWith 0 IExternalLinkage.SerialDeviceLinkage =
      IExternalLinkage.VirtualRegisterLinkage [0] := by
  decide

/-- C3 amended: the first association (no linkage installed) installs a
register linkage with the new register; an association on a block holding a
register linkage only extends it; but an association on a block holding a
device linkage replaces it with a fresh register linkage holding only the
new register, so switching from the device variant to the register variant
does happen. -/
theorem associateWith_behavior_C3 (v : Nat) (l : IExternalLinkage Nat) :
    (l = IExternalLinkage.NoLinkage →
      AssociateWith v l = IExternalLinkage.VirtualRegisterLinkage [v]) ∧
    (l = IExternalLinkage.SerialDeviceLinkage →
      AssociateWith v l = IExternalLinkage.VirtualRegisterLinkage [v]) ∧
    (∀ vs, l = IExternalLinkage.VirtualRegisterLinkage vs →
      AssociateWith v l =
        IExternalLinkage.VirtualRegisterLinkage (linkInsert v vs)) := by
  refine ⟨?_, ?_, ?_⟩
  · rintro rfl
    rfl
  · rintro rfl
    rfl
  · intro vs hvs
    subst hvs
    rfl

/-- C3 amended witness: the theorem applied to a block already holding a
register linkage with register 0, associated with register 1. -/
theorem associateWith_behavior_C3_witness :
    AssociateWith 1 (IExternalLinkage.VirtualRegisterLinkage [0]) =
      IExternalLinkage.VirtualRegisterLinkage (linkInsert 1 [0]) :=
  (associateWith_behavior_C3 1
    (IExternalLinkage.VirtualRegisterLinkage [0])).2.2 [0] rfl

/-- C4 counterexample: a writable two-byte block with a read-only register
covering bits [0, 8) and a writable register covering the whole block. The
claim (block writable and some register not spanning the full width) holds,
yet NeedsCaching returns false, because the source requires the register
that fails to cover the block to itself be writable. -/
theorem needsCaching_counterexample_C4 :
    specNeedsCachingC4 wCacheBlock wCacheRegs ∧
    wCacheBlock.NeedsCaching
      (IExternalLinkage.VirtualRegisterLinkage wCacheRegs) = false := by
  decide

/-- C4 amended: for a block with a register linkage, NeedsCaching returns
true iff at least one associated register is writable (neither the block
type nor that register is read-only) and that same register does not span
the full block bit width [0, size*8). -/
theorem needsCaching_iff_C4 (mb : TMemoryBlock)
    (vregs : List TRegisterBindEntry) :
    mb.NeedsCaching (IExternalLinkage.VirtualRegisterLinkage vregs) = true ↔
      ∃ v ∈ vregs, (mb.BlockType.ReadOnly = false ∧ v.ReadOnly = false) ∧
        ¬(v.BitStart = 0 ∧ v.BitEnd = mb.Size * 8) := by
  show virtualRegisterLinkageNeedsCaching mb vregs = true ↔ _
  unfold virtualRegisterLinkageNeedsCaching
  rw [List.any_eq_true]
  constructor
  · rintro ⟨v, hv, hb⟩
    simp only [Bool.and_eq_true, Bool.not_eq_eq_eq_not, Bool.not_true,
      decide_eq_false_iff_not] at hb
    exact ⟨v, hv, ⟨hb.1.1, hb.1.2⟩, hb.2⟩
  · rintro ⟨v, hv, ⟨hmb, hvr⟩, hne⟩
    refine ⟨v, hv, ?_⟩
    simp only [Bool.and_eq_true, Bool.not_eq_eq_eq_not, Bool.not_true,
      decide_eq_false_iff_not]
    exact ⟨⟨hmb, hvr⟩, hne⟩

/-- The read error update never changes CurrentValue. -/
theorem UpdateReadError_CurrentValue (e : Bool) (s : TVirtualRegisterState) :
    (TVirtualRegister.UpdateReadError e s).CurrentValue = s.CurrentValue :=
  rfl

/-- The read error update never changes ValueIsRead. -/
theorem UpdateReadError_ValueIsRead (e : Bool) (s : TVirtualRegisterState) :
    (TVirtualRegister.UpdateReadError e s).ValueIsRead = s.ValueIsRead :=
  rfl

/-- The read error update never changes the Value publish flag. -/
theorem UpdateReadError_value_flag (e : Bool) (s : TVirtualRegisterState) :
    (TVirtualRegister.UpdateReadError e s).ChangedPublishData.value =
      s.ChangedPublishData.value := by
  unfold TVirtualRegister.UpdateReadError
  split <;> rfl

/-- After a read error update the ReadError flag equals the update argument. -/
theorem UpdateReadError_hasReadError (e : Bool) (s : TVirtualRegisterState) :
    (TVirtualRegister.UpdateReadError e s).ErrorState.hasReadError = e := by
  unfold TVirtualRegister.UpdateReadError
  cases hs : s.ErrorState <;>
    simp [hs, EErrorState.hasReadError, TVirtualRegister.normalizeErrorState,
      TVirtualRegister.setReadErrorFlag]

/-- C8: for a polled register (Poll set, not dirty), AcceptDeviceValue has
the claimed effect: on the configured error value it marks a read error and
leaves CurrentValue unchanged; otherwise a differing decoded value replaces
CurrentValue and flags Value, a first accepted poll flags Value
unconditionally, and the ReadError bit ends cleared; in every case
ValueIsRead is set. -/
theorem acceptDeviceValue_C8 (raw : Nat) (s : TVirtualRegisterState)
    (h : s.Poll = true ∧ s.Dirty = false) :
    ((s.HasErrorValue = true ∧ s.ErrorValue = raw) →
      ((TVirtualRegister.AcceptDeviceValue raw s).ErrorState.hasReadError
          = true ∧
       (TVirtualRegister.AcceptDeviceValue raw s).CurrentValue
          = s.CurrentValue)) ∧
    (¬(s.HasErrorValue = true ∧ s.ErrorValue = raw) →
      ((s.CurrentValue ≠ raw →
         ((TVirtualRegister.AcceptDeviceValue raw s).CurrentValue = raw ∧
          (TVirtualRegister.AcceptDeviceValue raw s).ChangedPublishData.value
            = true)) ∧
       (s.ValueWasAccepted = false →
         (TVirtualRegister.AcceptDeviceValue raw s).ChangedPublishData.value
           = true) ∧
       (TVirtualRegister.AcceptDeviceValue raw s).ErrorState.hasReadError
         = false)) ∧
    (TVirtualRegister.AcceptDeviceValue raw s).ValueIsRead = true := by
  obtain ⟨hp, hd⟩ := h
  have hc : ¬((!(TVirtualRegister.NeedToPoll s)) = true) := by
    simp [TVirtualRegister.NeedToPoll, hp, hd]
  unfold TVirtualRegister.AcceptDeviceValue
  rw [if_neg hc]
  refine ⟨?_, ?_, ?_⟩
  · rintro ⟨hev, heq⟩
    rw [if_pos (by simp [hev, heq])]
    exact ⟨UpdateReadError_hasReadError true _,
      UpdateReadError_CurrentValue true _⟩
  · intro hne
    rw [if_neg (by simpa [Bool.and_eq_true, decide_eq_true_eq] using hne)]
    refine ⟨?_, ?_, ?_⟩
    · intro hneq
      rw [if_pos (by simpa using hneq)]
      constructor
      · rw [UpdateReadError_CurrentValue]
        rfl
      · rw [UpdateReadError_value_flag]
        rfl
    · intro hfa
      by_cases hneq : s.CurrentValue ≠ raw
      · rw [if_pos (by simpa using hneq)]
        rw [UpdateReadError_value_flag]
        rfl
      · rw [if_neg (by simpa using hneq)]
        rw [if_pos (by simp [hfa])]
        rw [UpdateReadError_value_flag]
        rfl
    · split_ifs <;> exact UpdateReadError_hasReadError false _
  · split_ifs <;> (rw [UpdateReadError_ValueIsRead]; rfl)

/-- C8 witness: the theorem applied to a fresh polled register receiving the
value 9: the value is stored, Value is flagged and no read error remains. -/
theorem acceptDeviceValue_C8_witness :
    (TVirtualRegister.AcceptDeviceValue 9 wPollState).CurrentValue = 9 ∧
    (TVirtualRegister.AcceptDeviceValue 9 wPollState).ChangedPublishData.value
      = true ∧
    (TVirtualRegister.AcceptDeviceValue 9
      wPollState).ErrorState.hasReadError = false ∧
    (TVirtualRegister.AcceptDeviceValue 9 wPollState).ValueIsRead = true := by
  have h := acceptDeviceValue_C8 9 wPollState ⟨rfl, rfl⟩
  have hn := h.2.1 (by decide)
  exact ⟨(hn.1 (by decide)).1, (hn.1 (by decide)).2, hn.2.2, h.2.2⟩

/-- C9: both error updates treat the error state as a flag set with the
UnknownErrorState sentinel: a first successful update (sentinel present,
no error) clears the sentinel into the empty flag set, and the Error
publish flag is added exactly when the resulting error state differs from
the one before the update. -/
theorem updateErrors_C9 (e : Bool) (s : TVirtualRegisterState) :
    ((s.ErrorState = EErrorState.UnknownErrorState ∧ e = false) →
      ((TVirtualRegister.UpdateReadError e s).ErrorState =
          EErrorState.Flags false false ∧
       (TVirtualRegister.UpdateWriteError e s).ErrorState =
          EErrorState.Flags false false)) ∧
    ((TVirtualRegister.UpdateReadError e s).ChangedPublishData.error =
      (s.ChangedPublishData.error ||
        decide ((TVirtualRegister.UpdateReadError e s).ErrorState ≠
          s.ErrorState))) ∧
    ((TVirtualRegister.UpdateWriteError e s).ChangedPublishData.error =
      (s.ChangedPublishData.error ||
        decide ((TVirtualRegister.UpdateWriteError e s).ErrorState ≠
          s.ErrorState))) := by
  obtain ⟨P, D, HEV, EV, CV, VW, ES, CPD, VIR, VWA, WQS, WQV⟩ := s
  obtain ⟨cv, ce⟩ := CPD
  rcases ES with _ | ⟨r, w⟩
  · cases e <;> cases ce <;>
      simp [TVirtualRegister.UpdateReadError,
        TVirtualRegister.UpdateWriteError,
        TVirtualRegister.normalizeErrorState,
        TVirtualRegister.setReadErrorFlag,
        TVirtualRegister.setWriteErrorFlag]
  · cases r <;> cases w <;> cases e <;> cases ce <;>
      simp [TVirtualRegister.UpdateReadError,
        TVirtualRegister.UpdateWriteError,
        TVirtualRegister.normalizeErrorState,
        TVirtualRegister.setReadErrorFlag,
        TVirtualRegister.setWriteErrorFlag]

/-- C9 witness: the theorem applied to a register whose error state holds
the sentinel, updated successfully: the sentinel is cleared. -/
theorem updateErrors_C9_witness :
    (TVirtualRegister.UpdateReadError false wErrState).ErrorState =
        EErrorState.Flags false false ∧
    (TVirtualRegister.UpdateWriteError false wErrState).ErrorState =
        EErrorState.Flags false false :=
  (updateErrors_C9 false wErrState).1 ⟨rfl, rfl⟩

/-- C10: for a register whose Poll flag is false or whose dirty flag is set,
AcceptDeviceValue leaves the whole register state unchanged, for any raw
value: in particular CurrentValue, the error state, the publish flags,
ValueIsRead and ValueWasAccepted are untouched. -/
theorem acceptDeviceValue_noop_C10 (raw : Nat) (s : TVirtualRegisterState)
    (h : s.Poll = false ∨ s.Dirty = true) :
    TVirtualRegister.AcceptDeviceValue raw s = s := by
  have hc : (!(TVirtualRegister.NeedToPoll s)) = true := by
    unfold TVirtualRegister.NeedToPoll
    rcases h with h | h <;> simp [h]
  unfold TVirtualRegister.AcceptDeviceValue
  rw [if_pos hc]

/-- C10 witness: the theorem applied to a register with the Poll flag
cleared, receiving the value 42. -/
theorem acceptDeviceValue_noop_C10_witness :
    TVirtualRegister.AcceptDeviceValue 42 wNoPollState = wNoPollState :=
  acceptDeviceValue_noop_C10 42 wNoPollState (Or.inl rfl)

/-- C1: at the concrete dirty register with CurrentValue 5 and ValueToWrite
7 and a device that reports Ok, Flush clears the dirty flag, executes with
the Ok status and leaves the WriteError flag clear, as the claim states;
but the value stored into the write query is CurrentValue (5), not
ValueToWrite (7): src/virtual_register.cpp line 426 passes
GetValueContext where the claim and the surrounding design (the otherwise
unused GetValueToWriteContext at lines 495-499, and AcceptWriteValue
copying ValueToWrite into CurrentValue after a write) call for
GetValueToWriteContext. -/
theorem flush_writes_current_value_C1 :
    (TVirtualRegister.Flush wExecuteOk wFlushState).Dirty = false ∧
    (TVirtualRegister.Flush wExecuteOk wFlushState).WriteQueryStatus =
      EQueryStatus.Ok ∧
    (TVirtualRegister.Flush wExecuteOk
      wFlushState).ErrorState.hasWriteError = false ∧
    (TVirtualRegister.Flush wExecuteOk wFlushState).WriteQueryValue =
      TVirtualRegister.GetValueContext wFlushState ∧
    (TVirtualRegister.Flush wExecuteOk wFlushState).WriteQueryValue = 5 ∧
    TVirtualRegister.GetValueToWriteContext wFlushState = 7 ∧
    (TVirtualRegister.Flush wExecuteOk wFlushState).WriteQueryValue ≠
      wFlushState.ValueToWrite := by
  decide

end WbSerial
